import Mathlib

/-!
Shallow embedding of the music recommendation service of this repository
(`src/app/service.py` and `src/app/controller.py`).

Modelling conventions:
* pandas DataFrames become lists of row structures, kept in file order;
* track and user identifiers are `Nat`, similarity scores are `Rat`;
* `DataFrame.nsmallest(n, col)` (keep="first") and sorted group keys are
  modelled with a stable insertion sort `sortBy`;
* `DataFrame.sort_values(col, ascending=False)` is implemented by pandas
  as an ascending argsort followed by a reversal of the index
  (`nargsort`: `indexer = indexer[::-1]`), so it is modelled as the stable
  ascending sort followed by `List.reverse`.  The default numpy sort kind
  ("quicksort") is not stable in general, but it coincides with the stable
  insertion sort on the small arrays used in every concrete computation here;
* the mutable module-level dict `online_history_cache` becomes an explicit
  map `Nat → Option (List Nat)` threaded through the functions;
* `int(n * 0.3)` with the float constant `ONLINE_HISTORY_WEIGHT = 0.3` equals
  `n * 3 / 10` (integer division) for every `n` in the API range 1..100
  (the float product `n * 0.3` rounds to the exact value `3n/10` whenever the
  latter is an integer, and its error is far below the distance to the next
  integer otherwise), so the quota is embedded as `n * 3 / 10`;
* the startup loader `load_data` performs the four S3 reads inside a single
  `try`; its four inputs are modelled as `Option` values in load order.
-/

namespace RecSys

/-- Stable insertion of `a` into `l`: `a` is placed immediately before the first
element `b` with `le a b = true`.  With a `≤`-style comparison this realises a
stable ascending insertion, matching pandas' stable ordering behaviour. -/
def insertBy {α : Type} (le : α → α → Bool) (a : α) : List α → List α
  | [] => [a]
  | b :: l => if le a b then a :: b :: l else b :: insertBy le a l

/-- Stable insertion sort driven by the boolean comparison `le`. -/
def sortBy {α : Type} (le : α → α → Bool) : List α → List α
  | [] => []
  | a :: l => insertBy le a (sortBy le l)

theorem perm_insertBy {α : Type} (le : α → α → Bool) (a : α) :
    ∀ l : List α, (insertBy le a l).Perm (a :: l)
  | [] => List.Perm.refl _
  | b :: l => by
    rw [insertBy]
    split
    · exact List.Perm.refl _
    · exact ((perm_insertBy le a l).cons b).trans (List.Perm.swap a b l)

theorem perm_sortBy {α : Type} (le : α → α → Bool) :
    ∀ l : List α, (sortBy le l).Perm l
  | [] => List.Perm.refl _
  | a :: l => (perm_insertBy le a _).trans ((perm_sortBy le l).cons a)

theorem mem_insertBy {α : Type} {le : α → α → Bool} {a x : α} {l : List α} :
    x ∈ insertBy le a l ↔ x = a ∨ x ∈ l := by
  rw [(perm_insertBy le a l).mem_iff, List.mem_cons]

theorem mem_sortBy {α : Type} {le : α → α → Bool} {x : α} {l : List α} :
    x ∈ sortBy le l ↔ x ∈ l :=
  (perm_sortBy le l).mem_iff

theorem length_sortBy {α : Type} (le : α → α → Bool) (l : List α) :
    (sortBy le l).length = l.length :=
  (perm_sortBy le l).length_eq

theorem pairwise_insertBy {α β : Type} [LinearOrder β] (key : α → β) (a : α) (l : List α)
    (h : l.Pairwise (fun x y => key x ≤ key y)) :
    (insertBy (fun x y => decide (key x ≤ key y)) a l).Pairwise
      (fun x y => key x ≤ key y) := by
  induction l with
  | nil => simp [insertBy]
  | cons b t ih =>
    rw [List.pairwise_cons] at h
    rw [insertBy]
    by_cases hab : key a ≤ key b
    · rw [if_pos (by simpa using hab)]
      refine List.Pairwise.cons ?_ (List.Pairwise.cons h.1 h.2)
      intro x hx
      rcases List.mem_cons.mp hx with rfl | hx
      · exact hab
      · exact hab.trans (h.1 x hx)
    · rw [if_neg (by simpa using hab)]
      refine List.Pairwise.cons ?_ (ih h.2)
      intro x hx
      rcases mem_insertBy.mp hx with rfl | hx
      · exact le_of_lt (lt_of_not_le hab)
      · exact h.1 x hx

theorem pairwise_sortBy {α β : Type} [LinearOrder β] (key : α → β) :
    ∀ l : List α,
      (sortBy (fun x y => decide (key x ≤ key y)) l).Pairwise (fun x y => key x ≤ key y)
  | [] => List.Pairwise.nil
  | a :: l => pairwise_insertBy key a _ (pairwise_sortBy key l)

/-- Row of the offline recommendations table (`recommendations.parquet`),
columns `user_id`, `track_id`, `rank`. -/
structure OfflineRow where
  user_id : Nat
  track_id : Nat
  rank : Nat
  deriving DecidableEq, Repr

/-- Row of the similarity table (`similar.parquet`), columns `track_id`,
`similar_track_id`, `score`. -/
structure SimilarRow where
  track_id : Nat
  similar_track_id : Nat
  score : Rat
  deriving DecidableEq, Repr

/-- Row of the popularity table (`top_popular.parquet`), columns `track_id`,
`rank`. -/
structure PopularRow where
  track_id : Nat
  rank : Nat
  deriving DecidableEq, Repr

/-- One entry of the response list, as in `model.py` (`Recommendation`). -/
structure Recommendation where
  track_id : Nat
  rank : Nat
  deriving DecidableEq, Repr

/-- The four datasets held in `service.py` module globals after `load_data`. -/
structure ServiceData where
  offline_recs : List OfflineRow
  similar_tracks : List SimilarRow
  top_popular : List PopularRow
  items : List Nat
  deriving DecidableEq, Repr

/-- The mutable `online_history_cache` dict of `service.py`. -/
def Cache : Type := Nat → Option (List Nat)

/-- `service.get_offline_recommendations`: filter the offline table to the
user's rows and, when non-empty, return the `n` rows of smallest `rank`
(`DataFrame.nsmallest(n, "rank")`, keep="first": stable ascending sort,
then take `n`). -/
def get_offline_recommendations (offline_recs : List OfflineRow) (user_id : Nat)
    (n : Nat) : List OfflineRow :=
  let user_recs := offline_recs.filter (fun r => decide (r.user_id = user_id))
  if 0 < user_recs.length then
    (sortBy (fun a b => decide (a.rank ≤ b.rank)) user_recs).take n
  else []

/-- `service.get_popular_recommendations`: the filter is applied only when the
exclusion list is truthy (non-empty), then the first `n` rows are taken. -/
def get_popular_recommendations (top_popular : List PopularRow) (n : Nat)
    (exclude_tracks : List Nat) : List PopularRow :=
  let popular :=
    if exclude_tracks = [] then top_popular
    else top_popular.filter (fun r => decide (r.track_id ∉ exclude_tracks))
  popular.take n

/-- Distinct `similar_track_id` keys of the rows, ascending: pandas
`groupby("similar_track_id")` sorts the group keys. -/
def groupKeys (rows : List SimilarRow) : List Nat :=
  sortBy (fun a b => decide (a ≤ b)) (rows.map SimilarRow.similar_track_id).dedup

/-- Sum of the `score` column over the rows with the given key
(`groupby(...)["score"].sum()`). -/
def sumScore (rows : List SimilarRow) (k : Nat) : Rat :=
  ((rows.filter (fun r => decide (r.similar_track_id = k))).map SimilarRow.score).sum

/-- The aggregated `(track_id, score)` frame produced by the groupby-sum,
keys ascending. -/
def similar_agg (rows : List SimilarRow) : List (Nat × Rat) :=
  (groupKeys rows).map (fun k => (k, sumScore rows k))

/-- `sort_values("score", ascending=False)`: ascending stable sort, then the
index reversal performed by pandas' `nargsort` for `ascending=False`. -/
def sortScoreDesc (l : List (Nat × Rat)) : List (Nat × Rat) :=
  (sortBy (fun a b => decide (a.2 ≤ b.2)) l).reverse

/-- Rows of the similarity table whose seed `track_id` lies in the history
(`similar_tracks[similar_tracks["track_id"].isin(track_ids)]`). -/
def matchedRows (similar_tracks : List SimilarRow) (track_ids : List Nat) :
    List SimilarRow :=
  similar_tracks.filter (fun r => decide (r.track_id ∈ track_ids))

/-- Matched rows whose `similar_track_id` avoids the union of the history and
the explicit exclusion list (`all_exclude = set(track_ids) | exclude_tracks`). -/
def keptRows (similar_tracks : List SimilarRow) (track_ids : List Nat)
    (exclude_tracks : List Nat) : List SimilarRow :=
  (matchedRows similar_tracks track_ids).filter
    (fun r => decide (r.similar_track_id ∉ track_ids ∧
      r.similar_track_id ∉ exclude_tracks))

/-- `service.get_similar_tracks_for_history`: early return on empty history,
early return when no similarity row matches a seed, exclusion of the union of
the seeds and `exclude_tracks`, groupby-sum, descending sort, head `n`. -/
def get_similar_tracks_for_history (similar_tracks : List SimilarRow)
    (track_ids : List Nat) (n : Nat) (exclude_tracks : List Nat) : List (Nat × Rat) :=
  if track_ids = [] then []
  else
    if matchedRows similar_tracks track_ids = [] then []
    else
      (sortScoreDesc (similar_agg
        (keptRows similar_tracks track_ids exclude_tracks))).take n

/-- One step of the merge loops of `service.mix_recommendations`: append the
track with the next sequential rank unless it was already placed. -/
def mixAdd (acc : List Recommendation) (tid : Nat) : List Recommendation :=
  if tid ∈ acc.map Recommendation.track_id then acc
  else acc ++ [⟨tid, acc.length + 1⟩]

/-- First loop of `mix_recommendations`, over the online candidates
(already truncated to the quota by `head(n_online)`). -/
def mixOnlinePhase (acc : List Recommendation) (tids : List Nat) : List Recommendation :=
  tids.foldl mixAdd acc

/-- Second loop of `mix_recommendations`, over all offline candidates; the
`break` on `len(result) >= n` is modelled by the guard (the length never
decreases, so skipping is equivalent to breaking). -/
def mixOfflinePhase (n : Nat) (acc : List Recommendation) (tids : List Nat) :
    List Recommendation :=
  tids.foldl (fun acc tid => if n ≤ acc.length then acc else mixAdd acc tid) acc

/-- `service.mix_recommendations`: online quota `int(n * 0.3) = n * 3 / 10`,
online phase first, offline fill while the total stays below `n`. -/
def mix_recommendations (offline : List OfflineRow) (online : List (Nat × Rat))
    (n : Nat) : List Recommendation :=
  let n_online := n * 3 / 10
  let afterOnline := mixOnlinePhase [] ((online.take n_online).map Prod.fst)
  mixOfflinePhase n afterOnline (offline.map OfflineRow.track_id)

/-- `controller.update_online_history`: wholesale replacement of the user's
entry in the cache dict. -/
def update_online_history (cache : Cache) (user_id : Nat) (track_ids : List Nat) :
    Cache :=
  fun v => if v = user_id then some track_ids else cache v

/-- `controller.clear_online_history`: delete the entry when present and report
whether it was found (`status: success` vs `status: not_found`). -/
def clear_online_history (cache : Cache) (user_id : Nat) : Bool × Cache :=
  match cache user_id with
  | some _ => (true, fun v => if v = user_id then none else cache v)
  | none => (false, cache)

/-- `controller.get_recommendations`: offline candidates are fetched with the
wider limit 100, the history is read from the cache with default `[]`, and the
three-way strategy dispatch follows the `if has_online and has_offline` /
`elif has_offline` / `else` chain of the source. -/
def get_recommendations (svc : ServiceData) (cache : Cache) (user_id : Nat)
    (n : Nat) : List Recommendation × String :=
  let offline := get_offline_recommendations svc.offline_recs user_id 100
  let online_history := (cache user_id).getD []
  if online_history ≠ [] ∧ offline ≠ [] then
    let online_recs :=
      get_similar_tracks_for_history svc.similar_tracks online_history n online_history
    (mix_recommendations offline online_recs n, "mixed_online_offline")
  else if offline ≠ [] then
    ((offline.take n).map (fun r => ⟨r.track_id, r.rank⟩), "offline_only")
  else
    let popular := get_popular_recommendations svc.top_popular n online_history
    (popular.map (fun r => ⟨r.track_id, r.rank⟩), "popular_fallback")

/-- The empty datasets installed by the `except` branch of `load_data`. -/
def emptyData : ServiceData := ⟨[], [], [], []⟩

/-- `service.load_data`: the four datasets are read sequentially inside one
`try`; the first failure jumps to the `except` branch, which reassigns all four
globals to empty tables.  Each argument is the outcome of the corresponding
read, in load order (offline recommendations, similarity, popularity, items). -/
def load_data (r1 : Option (List OfflineRow)) (r2 : Option (List SimilarRow))
    (r3 : Option (List PopularRow)) (r4 : Option (List Nat)) : ServiceData :=
  match r1 with
  | none => emptyData
  | some offline =>
    match r2 with
    | none => emptyData
    | some similar =>
      match r3 with
      | none => emptyData
      | some popular =>
        match r4 with
        | none => emptyData
        | some items => ⟨offline, similar, popular, items⟩

/-! Helper lemmas about the embedding. -/

theorem range'_one_concat (n : Nat) :
    List.range' 1 (n + 1) = List.range' 1 n ++ [n + 1] := by
  simp [List.range'_concat, Nat.add_comm]

theorem take_range' : ∀ (s m n : Nat), (List.range' s m).take n = List.range' s (min n m)
  | _, 0, _ => by simp
  | _, _ + 1, 0 => by simp
  | s, m + 1, n + 1 => by
    rw [List.range'_succ, List.take_succ_cons, take_range' (s + 1) m n,
      Nat.succ_min_succ, List.range'_succ]

/-- The track ids already placed are preserved by `mixAdd`. -/
theorem mem_mixAdd_mono {x : Nat} {acc : List Recommendation} (tid : Nat)
    (h : x ∈ acc.map Recommendation.track_id) :
    x ∈ (mixAdd acc tid).map Recommendation.track_id := by
  rw [mixAdd]
  split
  · exact h
  · simp only [List.map_append, List.map_cons, List.map_nil]
    exact List.mem_append_left _ h

theorem mem_mixAdd_self (acc : List Recommendation) (tid : Nat) :
    tid ∈ (mixAdd acc tid).map Recommendation.track_id := by
  rw [mixAdd]
  split
  · assumption
  · simp

theorem length_mixAdd_le (acc : List Recommendation) (tid : Nat) :
    (mixAdd acc tid).length ≤ acc.length + 1 := by
  rw [mixAdd]
  split
  · exact Nat.le_succ _
  · simp

theorem le_length_mixAdd (acc : List Recommendation) (tid : Nat) :
    acc.length ≤ (mixAdd acc tid).length := by
  rw [mixAdd]
  split
  · exact Nat.le_refl _
  · simp

/-- The ranks of the accumulated list are the sequential integers `1..k`. -/
def rankSeq (l : List Recommendation) : Prop :=
  l.map Recommendation.rank = List.range' 1 l.length

theorem rankSeq_nil : rankSeq [] := rfl

theorem rankSeq_mixAdd {acc : List Recommendation} (tid : Nat) (h : rankSeq acc) :
    rankSeq (mixAdd acc tid) := by
  rw [mixAdd]
  split
  · exact h
  · unfold rankSeq at h ⊢
    simp only [List.map_append, List.map_cons, List.map_nil, List.length_append,
      List.length_cons, List.length_nil]
    rw [h, ← range'_one_concat]

theorem nodup_mixAdd {acc : List Recommendation} (tid : Nat)
    (h : (acc.map Recommendation.track_id).Nodup) :
    ((mixAdd acc tid).map Recommendation.track_id).Nodup := by
  rw [mixAdd]
  split
  · exact h
  · rename_i hmem
    simp only [List.map_append, List.map_cons, List.map_nil]
    rw [List.nodup_append]
    exact ⟨h, List.nodup_singleton tid, by simpa using fun hx => hmem hx⟩

theorem mixOnlinePhase_mem_mono {x : Nat} :
    ∀ (tids : List Nat) (acc : List Recommendation),
      x ∈ acc.map Recommendation.track_id →
      x ∈ (mixOnlinePhase acc tids).map Recommendation.track_id
  | [], _, h => h
  | t :: ts, acc, h => mixOnlinePhase_mem_mono ts (mixAdd acc t) (mem_mixAdd_mono t h)

theorem length_mixOnlinePhase :
    ∀ (tids : List Nat) (acc : List Recommendation),
      (mixOnlinePhase acc tids).length ≤ acc.length + tids.length
  | [], _ => Nat.le_refl _
  | t :: ts, acc => by
    show (mixOnlinePhase (mixAdd acc t) ts).length ≤ acc.length + (t :: ts).length
    have h1 := length_mixOnlinePhase ts (mixAdd acc t)
    have h2 := Nat.add_le_add_right (length_mixAdd_le acc t) ts.length
    have h3 := h1.trans h2
    simp only [List.length_cons]
    omega

theorem rankSeq_mixOnlinePhase :
    ∀ (tids : List Nat) (acc : List Recommendation),
      rankSeq acc → rankSeq (mixOnlinePhase acc tids)
  | [], _, h => h
  | t :: ts, acc, h => rankSeq_mixOnlinePhase ts (mixAdd acc t) (rankSeq_mixAdd t h)

theorem nodup_mixOnlinePhase :
    ∀ (tids : List Nat) (acc : List Recommendation),
      (acc.map Recommendation.track_id).Nodup →
      ((mixOnlinePhase acc tids).map Recommendation.track_id).Nodup
  | [], _, h => h
  | t :: ts, acc, h => nodup_mixOnlinePhase ts (mixAdd acc t) (nodup_mixAdd t h)

theorem mixOfflinePhase_mem_mono {n : Nat} {x : Nat} :
    ∀ (tids : List Nat) (acc : List Recommendation),
      x ∈ acc.map Recommendation.track_id →
      x ∈ (mixOfflinePhase n acc tids).map Recommendation.track_id
  | [], _, h => h
  | t :: ts, acc, h => by
    show x ∈ (mixOfflinePhase n (if n ≤ acc.length then acc else mixAdd acc t) ts).map
      Recommendation.track_id
    split
    · exact mixOfflinePhase_mem_mono ts acc h
    · exact mixOfflinePhase_mem_mono ts (mixAdd acc t) (mem_mixAdd_mono t h)

theorem le_length_mixOfflinePhase {n : Nat} :
    ∀ (tids : List Nat) (acc : List Recommendation),
      acc.length ≤ (mixOfflinePhase n acc tids).length
  | [], _ => Nat.le_refl _
  | t :: ts, acc => by
    show acc.length ≤ (mixOfflinePhase n (if n ≤ acc.length then acc else mixAdd acc t)
      ts).length
    split
    · exact le_length_mixOfflinePhase ts acc
    · exact (le_length_mixAdd acc t).trans (le_length_mixOfflinePhase ts (mixAdd acc t))

theorem length_mixOfflinePhase_le {n : Nat} :
    ∀ (tids : List Nat) (acc : List Recommendation),
      acc.length ≤ n → (mixOfflinePhase n acc tids).length ≤ n
  | [], _, h => h
  | t :: ts, acc, h => by
    show (mixOfflinePhase n (if n ≤ acc.length then acc else mixAdd acc t) ts).length ≤ n
    split
    · exact length_mixOfflinePhase_le ts acc h
    · rename_i hlt
      exact length_mixOfflinePhase_le ts (mixAdd acc t)
        ((length_mixAdd_le acc t).trans (Nat.succ_le_of_lt (Nat.lt_of_not_le hlt)))

theorem rankSeq_mixOfflinePhase {n : Nat} :
    ∀ (tids : List Nat) (acc : List Recommendation),
      rankSeq acc → rankSeq (mixOfflinePhase n acc tids)
  | [], _, h => h
  | t :: ts, acc, h => by
    show rankSeq (mixOfflinePhase n (if n ≤ acc.length then acc else mixAdd acc t) ts)
    split
    · exact rankSeq_mixOfflinePhase ts acc h
    · exact rankSeq_mixOfflinePhase ts (mixAdd acc t) (rankSeq_mixAdd t h)

theorem nodup_mixOfflinePhase {n : Nat} :
    ∀ (tids : List Nat) (acc : List Recommendation),
      (acc.map Recommendation.track_id).Nodup →
      ((mixOfflinePhase n acc tids).map Recommendation.track_id).Nodup
  | [], _, h => h
  | t :: ts, acc, h => by
    show ((mixOfflinePhase n (if n ≤ acc.length then acc else mixAdd acc t) ts).map
      Recommendation.track_id).Nodup
    split
    · exact nodup_mixOfflinePhase ts acc h
    · exact nodup_mixOfflinePhase ts (mixAdd acc t) (nodup_mixAdd t h)

/-- When the offline fill stops below `n`, every offline candidate was placed. -/
theorem mixOfflinePhase_exhausts {n : Nat} :
    ∀ (tids : List Nat) (acc : List Recommendation),
      (mixOfflinePhase n acc tids).length < n →
      ∀ t ∈ tids, t ∈ (mixOfflinePhase n acc tids).map Recommendation.track_id
  | [], _, _, t, ht => absurd ht (List.not_mem_nil t)
  | t :: ts, acc, h, x, hx => by
    have hstep :
        mixOfflinePhase n acc (t :: ts) =
          mixOfflinePhase n (if n ≤ acc.length then acc else mixAdd acc t) ts := rfl
    rcases List.mem_cons.mp hx with rfl | hxs
    · rw [hstep] at h ⊢
      by_cases hle : n ≤ acc.length
      · exfalso
        rw [if_pos hle] at h
        exact Nat.not_le.mpr h (hle.trans (le_length_mixOfflinePhase ts acc))
      · rw [if_neg hle] at h ⊢
        exact mixOfflinePhase_mem_mono ts (mixAdd acc x) (mem_mixAdd_self acc x)
    · rw [hstep] at h ⊢
      split at h
      · rename_i hle
        rw [if_pos hle]
        exact mixOfflinePhase_exhausts ts acc h x hxs
      · rename_i hle
        rw [if_neg hle]
        exact mixOfflinePhase_exhausts ts (mixAdd acc t) h x hxs

theorem mem_groupKeys {rows : List SimilarRow} {k : Nat} :
    k ∈ groupKeys rows ↔ ∃ r ∈ rows, r.similar_track_id = k := by
  unfold groupKeys
  rw [mem_sortBy, List.mem_dedup, List.mem_map]

theorem nodup_groupKeys (rows : List SimilarRow) : (groupKeys rows).Nodup :=
  ((perm_sortBy _ _).nodup_iff).mpr (List.nodup_dedup _)

theorem map_fst_similar_agg (rows : List SimilarRow) :
    (similar_agg rows).map Prod.fst = groupKeys rows := by
  unfold similar_agg
  induction groupKeys rows with
  | nil => rfl
  | cons k ks ih => simpa using ih

theorem mem_similar_agg {rows : List SimilarRow} {p : Nat × Rat}
    (h : p ∈ similar_agg rows) :
    p.1 ∈ groupKeys rows ∧ p.2 = sumScore rows p.1 := by
  unfold similar_agg at h
  rcases List.mem_map.mp h with ⟨k, hk, hp⟩
  cases hp
  exact ⟨hk, rfl⟩

theorem perm_sortScoreDesc (l : List (Nat × Rat)) : (sortScoreDesc l).Perm l :=
  (List.reverse_perm _).trans (perm_sortBy _ l)

theorem pairwise_sortScoreDesc (l : List (Nat × Rat)) :
    (sortScoreDesc l).Pairwise (fun a b => b.2 ≤ a.2) := by
  unfold sortScoreDesc
  rw [List.pairwise_reverse]
  exact pairwise_sortBy Prod.snd l

theorem keptRows_excludes {sim : List SimilarRow} {ts ex : List Nat} {r : SimilarRow}
    (h : r ∈ keptRows sim ts ex) :
    r ∈ sim ∧ r.track_id ∈ ts ∧ r.similar_track_id ∉ ts ∧ r.similar_track_id ∉ ex := by
  unfold keptRows matchedRows at h
  rw [List.mem_filter] at h
  obtain ⟨hm, hd⟩ := h
  rw [List.mem_filter] at hm
  obtain ⟨hs, hin⟩ := hm
  exact ⟨hs, of_decide_eq_true hin, (of_decide_eq_true hd).1, (of_decide_eq_true hd).2⟩

theorem get_similar_key_props {sim : List SimilarRow} {ts ex : List Nat} {k : Nat}
    (hk : k ∈ groupKeys (keptRows sim ts ex)) :
    k ∉ ts ∧ k ∉ ex ∧ ∃ row ∈ sim, row.track_id ∈ ts ∧ row.similar_track_id = k := by
  rcases mem_groupKeys.mp hk with ⟨r, hr, hrk⟩
  obtain ⟨hs, hts, hnt, hne⟩ := keptRows_excludes hr
  subst hrk
  exact ⟨hnt, hne, ⟨r, hs, hts, rfl⟩⟩

theorem get_similar_eq_branch {sim : List SimilarRow} {ts : List Nat} (n : Nat)
    (ex : List Nat) (h1 : ts ≠ []) (h2 : matchedRows sim ts ≠ []) :
    get_similar_tracks_for_history sim ts n ex =
      (sortScoreDesc (similar_agg (keptRows sim ts ex))).take n := by
  unfold get_similar_tracks_for_history
  rw [if_neg h1, if_neg h2]

theorem mem_get_similar {sim : List SimilarRow} {ts ex : List Nat} {n : Nat}
    {p : Nat × Rat} (hp : p ∈ get_similar_tracks_for_history sim ts n ex) :
    p.1 ∈ groupKeys (keptRows sim ts ex) ∧ p.2 = sumScore (keptRows sim ts ex) p.1 := by
  unfold get_similar_tracks_for_history at hp
  split at hp
  · exact absurd hp (List.not_mem_nil p)
  · split at hp
    · exact absurd hp (List.not_mem_nil p)
    · exact mem_similar_agg ((perm_sortScoreDesc _).mem_iff.mp (List.mem_of_mem_take hp))

theorem get_similar_excludes {sim : List SimilarRow} {ts ex : List Nat} {n : Nat} :
    ∀ p ∈ get_similar_tracks_for_history sim ts n ex, p.1 ∉ ts ∧ p.1 ∉ ex := by
  intro p hp
  have h := get_similar_key_props (mem_get_similar hp).1
  exact ⟨h.1, h.2.1⟩

theorem length_get_similar_le (sim : List SimilarRow) (ts : List Nat) (n : Nat)
    (ex : List Nat) : (get_similar_tracks_for_history sim ts n ex).length ≤ n := by
  unfold get_similar_tracks_for_history
  split
  · simp
  · split
    · simp
    · exact List.length_take_le _ _

theorem nodup_map_fst_get_similar (sim : List SimilarRow) (ts : List Nat) (n : Nat)
    (ex : List Nat) :
    ((get_similar_tracks_for_history sim ts n ex).map Prod.fst).Nodup := by
  unfold get_similar_tracks_for_history
  split
  · simp
  · split
    · simp
    · rw [List.map_take]
      have hperm :
          ((sortScoreDesc (similar_agg (keptRows sim ts ex))).map Prod.fst).Perm
            ((similar_agg (keptRows sim ts ex)).map Prod.fst) :=
        (perm_sortScoreDesc _).map _
      have hnd : ((sortScoreDesc (similar_agg (keptRows sim ts ex))).map Prod.fst).Nodup := by
        rw [hperm.nodup_iff, map_fst_similar_agg]
        exact nodup_groupKeys _
      exact hnd.sublist (List.take_sublist _ _)

theorem pairwise_get_similar (sim : List SimilarRow) (ts : List Nat) (n : Nat)
    (ex : List Nat) :
    (get_similar_tracks_for_history sim ts n ex).Pairwise (fun a b => b.2 ≤ a.2) := by
  unfold get_similar_tracks_for_history
  split
  · exact List.Pairwise.nil
  · split
    · exact List.Pairwise.nil
    · exact (pairwise_sortScoreDesc _).sublist (List.take_sublist _ _)

theorem get_similar_complete {sim : List SimilarRow} {ts ex : List Nat} {n : Nat}
    (h : (groupKeys (keptRows sim ts ex)).length ≤ n) :
    ∀ k ∈ groupKeys (keptRows sim ts ex),
      k ∈ (get_similar_tracks_for_history sim ts n ex).map Prod.fst := by
  intro k hk
  unfold get_similar_tracks_for_history
  split
  · rename_i hts
    exfalso
    rcases mem_groupKeys.mp hk with ⟨r, hr, _⟩
    obtain ⟨_, hts2, _, _⟩ := keptRows_excludes hr
    rw [hts] at hts2
    exact List.not_mem_nil _ hts2
  · split
    · rename_i hm
      exfalso
      rcases mem_groupKeys.mp hk with ⟨r, hr, _⟩
      unfold keptRows at hr
      rw [List.mem_filter, hm] at hr
      exact List.not_mem_nil _ hr.1
    · have hlen : (sortScoreDesc (similar_agg (keptRows sim ts ex))).length ≤ n := by
        rw [(perm_sortScoreDesc _).length_eq]
        unfold similar_agg
        rw [List.length_map]
        exact h
      rw [List.take_of_length_le hlen]
      have hperm :
          ((sortScoreDesc (similar_agg (keptRows sim ts ex))).map Prod.fst).Perm
            (groupKeys (keptRows sim ts ex)) := by
        rw [← map_fst_similar_agg]
        exact (perm_sortScoreDesc _).map _
      exact hperm.mem_iff.mpr hk

theorem get_offline_eq_of_ne {tbl : List OfflineRow} {u : Nat} (m : Nat)
    (h : tbl.filter (fun r => decide (r.user_id = u)) ≠ []) :
    get_offline_recommendations tbl u m =
      (sortBy (fun a b => decide (a.rank ≤ b.rank))
        (tbl.filter (fun r => decide (r.user_id = u)))).take m := by
  unfold get_offline_recommendations
  rw [if_pos (List.length_pos.mpr h)]

theorem get_offline_eq_nil {tbl : List OfflineRow} {u : Nat} (m : Nat)
    (h : tbl.filter (fun r => decide (r.user_id = u)) = []) :
    get_offline_recommendations tbl u m = [] := by
  simp [get_offline_recommendations, h]

theorem get_offline_ne_nil {tbl : List OfflineRow} {u : Nat}
    (h : tbl.filter (fun r => decide (r.user_id = u)) ≠ []) :
    get_offline_recommendations tbl u 100 ≠ [] := by
  rw [get_offline_eq_of_ne 100 h]
  apply List.length_pos.mp
  rw [List.length_take, length_sortBy]
  have := List.length_pos.mpr h
  omega

theorem get_recommendations_mixed {svc : ServiceData} {cache : Cache} {u n : Nat}
    (hh : (cache u).getD [] ≠ [])
    (ho : get_offline_recommendations svc.offline_recs u 100 ≠ []) :
    get_recommendations svc cache u n =
      (mix_recommendations (get_offline_recommendations svc.offline_recs u 100)
        (get_similar_tracks_for_history svc.similar_tracks ((cache u).getD []) n
          ((cache u).getD [])) n,
       "mixed_online_offline") := by
  simp only [get_recommendations]
  rw [if_pos ⟨hh, ho⟩]

theorem get_recommendations_offline {svc : ServiceData} {cache : Cache} {u n : Nat}
    (hh : (cache u).getD [] = [])
    (ho : get_offline_recommendations svc.offline_recs u 100 ≠ []) :
    get_recommendations svc cache u n =
      (((get_offline_recommendations svc.offline_recs u 100).take n).map
        (fun r => ⟨r.track_id, r.rank⟩),
       "offline_only") := by
  simp only [get_recommendations]
  rw [if_neg (by simp [hh]), if_pos ho]

theorem get_recommendations_popular {svc : ServiceData} {cache : Cache} {u n : Nat}
    (ho : get_offline_recommendations svc.offline_recs u 100 = []) :
    get_recommendations svc cache u n =
      ((get_popular_recommendations svc.top_popular n ((cache u).getD [])).map
        (fun r => ⟨r.track_id, r.rank⟩),
       "popular_fallback") := by
  simp only [get_recommendations]
  rw [if_neg (by simp [ho]), if_neg (by simp [ho])]

theorem mix_recommendations_def (offline : List OfflineRow) (online : List (Nat × Rat))
    (n : Nat) :
    mix_recommendations offline online n =
      mixOfflinePhase n (mixOnlinePhase [] ((online.take (n * 3 / 10)).map Prod.fst))
        (offline.map OfflineRow.track_id) := rfl

theorem nodup_mix_recommendations (offline : List OfflineRow) (online : List (Nat × Rat))
    (n : Nat) :
    ((mix_recommendations offline online n).map Recommendation.track_id).Nodup := by
  rw [mix_recommendations_def]
  exact nodup_mixOfflinePhase _ _ (nodup_mixOnlinePhase _ _ (by simp))

theorem map_track_id_offline (l : List OfflineRow) :
    ((l.map (fun r => (⟨r.track_id, r.rank⟩ : Recommendation))).map
      Recommendation.track_id) = l.map OfflineRow.track_id := by
  induction l with
  | nil => rfl
  | cons a t ih => simp [ih]

theorem map_rank_offline (l : List OfflineRow) :
    ((l.map (fun r => (⟨r.track_id, r.rank⟩ : Recommendation))).map
      Recommendation.rank) = l.map OfflineRow.rank := by
  induction l with
  | nil => rfl
  | cons a t ih => simp [ih]

theorem map_track_id_popular (l : List PopularRow) :
    ((l.map (fun r => (⟨r.track_id, r.rank⟩ : Recommendation))).map
      Recommendation.track_id) = l.map PopularRow.track_id := by
  induction l with
  | nil => rfl
  | cons a t ih => simp [ih]

theorem nodup_get_offline_map {tbl : List OfflineRow} {u : Nat} (m : Nat)
    (h : ((tbl.filter (fun r => decide (r.user_id = u))).map OfflineRow.track_id).Nodup) :
    ((get_offline_recommendations tbl u m).map OfflineRow.track_id).Nodup := by
  by_cases hf : tbl.filter (fun r => decide (r.user_id = u)) = []
  · rw [get_offline_eq_nil m hf]
    simp
  · rw [get_offline_eq_of_ne m hf, List.map_take]
    have hperm :=
      (perm_sortBy (fun a b => decide (a.rank ≤ b.rank))
        (tbl.filter (fun r => decide (r.user_id = u)))).map OfflineRow.track_id
    exact (hperm.nodup_iff.mpr h).sublist (List.take_sublist _ _)

theorem get_popular_eq_filter (top : List PopularRow) (n : Nat) (ex : List Nat) :
    get_popular_recommendations top n ex =
      (top.filter (fun r => decide (r.track_id ∉ ex))).take n := by
  unfold get_popular_recommendations
  by_cases hex : ex = []
  · rw [if_pos hex, hex]
    have : top.filter (fun r => decide (r.track_id ∉ ([] : List Nat))) = top :=
      List.filter_eq_self.mpr (fun a _ => by simp)
    rw [this]
  · rw [if_neg hex]

theorem nodup_get_popular_map {top : List PopularRow} (n : Nat) (ex : List Nat)
    (h : (top.map PopularRow.track_id).Nodup) :
    ((get_popular_recommendations top n ex).map PopularRow.track_id).Nodup := by
  rw [get_popular_eq_filter, List.map_take]
  exact (h.sublist ((List.filter_sublist _).map PopularRow.track_id)).sublist
    (List.take_sublist _ _)

theorem clear_found {cache : Cache} {u : Nat} {ts : List Nat} (h : cache u = some ts) :
    (clear_online_history cache u).1 = true ∧
    (clear_online_history cache u).2 u = none := by
  unfold clear_online_history
  rw [h]
  refine ⟨rfl, ?_⟩
  show (if u = u then none else cache u) = none
  rw [if_pos rfl]

theorem clear_not_found {cache : Cache} {u : Nat} (h : cache u = none) :
    (clear_online_history cache u).1 = false := by
  unfold clear_online_history
  rw [h]

/-- Offline and similarity tables of Scenario C of the spec: user 7 has offline
candidates `[(5,1),(6,2),(7,3)]` and the similarity table maps seed 5 to
`[(9,5.0),(6,1.0)]`. -/
def storeC : ServiceData :=
  ⟨[⟨7, 5, 1⟩, ⟨7, 6, 2⟩, ⟨7, 7, 3⟩], [⟨5, 9, 5⟩, ⟨5, 6, 1⟩], [], []⟩

/-- Session cache holding the history `[5]` for user 7 (Scenario C). -/
def cacheC : Cache := fun u => if u = 7 then some [5] else none

/-- Cache with no entries. -/
def emptyCache : Cache := fun _ => none

theorem scenarioC_eval :
    get_recommendations storeC cacheC 7 10 =
      ([⟨9, 1⟩, ⟨6, 2⟩, ⟨5, 3⟩, ⟨7, 4⟩], "mixed_online_offline") := by
  have hh : (cacheC 7).getD ([] : List Nat) = [5] := rfl
  have hst : storeC.similar_tracks = [⟨5, 9, 5⟩, ⟨5, 6, 1⟩] := rfl
  have hoff : get_offline_recommendations storeC.offline_recs 7 100 =
      [⟨7, 5, 1⟩, ⟨7, 6, 2⟩, ⟨7, 7, 3⟩] := by decide
  have hsim : get_similar_tracks_for_history [⟨5, 9, 5⟩, ⟨5, 6, 1⟩] [5] 10 [5] =
      [(9, 5), (6, 1)] := by
    rw [get_similar_eq_branch 10 [5] (by decide) (by decide)]
    norm_num [matchedRows, keptRows, similar_agg,
      groupKeys, sumScore, sortScoreDesc, sortBy, insertBy, List.dedup]
  have hmix : mix_recommendations [⟨7, 5, 1⟩, ⟨7, 6, 2⟩, ⟨7, 7, 3⟩] [(9, 5), (6, 1)] 10 =
      [⟨9, 1⟩, ⟨6, 2⟩, ⟨5, 3⟩, ⟨7, 4⟩] := by decide
  rw [get_recommendations_mixed (by rw [hh]; decide) (by rw [hoff]; decide),
    hh, hst, hoff, hsim, hmix]

/-! Claim theorems. -/

/-- Claim C1 (evaluation at the failing input): on the Scenario C inputs the
strategy is `mixed_online_offline` and track 5 — the sole element of the
triggering history — appears in the returned recommendation list, because the
offline fill step of the merge does not filter the history.  This contradicts
the exclusion invariant asserted by the claim (and by the repository's own
`test_service.py`, scenario 3, which requires no history track in the output). -/
theorem mixed_history_track_resurfaces :
    cacheC 7 = some [5] ∧
    (get_recommendations storeC cacheC 7 10).2 = "mixed_online_offline" ∧
    5 ∈ (get_recommendations storeC cacheC 7 10).1.map Recommendation.track_id := by
  refine ⟨rfl, ?_, ?_⟩
  · rw [scenarioC_eval]
  · rw [scenarioC_eval]
    decide

/-- Claim C2: in the mixed merge with target `n`, the online phase places at
most `n_online = n * 3 / 10` entries; the result has at most `n` entries; the
output ranks are exactly the sequential integers `1..k`; and the offline fill
continues while the total length is below `n` — if the result is shorter than
`n`, every offline candidate has already been placed (an online shortfall is
absorbed by offline up to `n` total). -/
theorem mix_recommendations_spec (offline : List OfflineRow)
    (online : List (Nat × Rat)) (n : Nat) :
    (mixOnlinePhase [] ((online.take (n * 3 / 10)).map Prod.fst)).length ≤ n * 3 / 10 ∧
    (mix_recommendations offline online n).length ≤ n ∧
    (mix_recommendations offline online n).map Recommendation.rank =
      List.range' 1 (mix_recommendations offline online n).length ∧
    ((mix_recommendations offline online n).length < n →
      ∀ t ∈ offline.map OfflineRow.track_id,
        t ∈ (mix_recommendations offline online n).map Recommendation.track_id) := by
  have hphase1 : (mixOnlinePhase [] ((online.take (n * 3 / 10)).map Prod.fst)).length ≤
      n * 3 / 10 := by
    have h1 := length_mixOnlinePhase ((online.take (n * 3 / 10)).map Prod.fst) []
    have h2 : ((online.take (n * 3 / 10)).map Prod.fst).length ≤ n * 3 / 10 := by
      rw [List.length_map]
      exact List.length_take_le _ _
    simp only [List.length_nil] at h1
    omega
  refine ⟨hphase1, ?_, ?_, ?_⟩
  · rw [mix_recommendations_def]
    apply length_mixOfflinePhase_le
    have : n * 3 / 10 ≤ n := by omega
    omega
  · rw [mix_recommendations_def]
    exact rankSeq_mixOfflinePhase _ _ (rankSeq_mixOnlinePhase _ _ rankSeq_nil)
  · intro h t ht
    rw [mix_recommendations_def] at h ⊢
    exact mixOfflinePhase_exhausts _ _ h t ht

/-- Witness for C2 at a concrete input discharging the shortfall hypothesis:
with one offline candidate, empty online candidates and `n = 5` the result is
shorter than 5 and the offline candidate was placed. -/
theorem mix_recommendations_spec_witness :
    (mix_recommendations [⟨1, 10, 1⟩] [] 5).length < 5 ∧
    10 ∈ (mix_recommendations [⟨1, 10, 1⟩] [] 5).map Recommendation.track_id :=
  ⟨by decide, (mix_recommendations_spec [⟨1, 10, 1⟩] [] 5).2.2.2 (by decide) 10 (by decide)⟩

/-- Claim C3: on the concrete Scenario C inputs (user 7 with offline candidates
`[(5,1),(6,2),(7,3)]`, history `[5]`, similarity `5 → [(9,5.0),(6,1.0)]`,
`n = 10`) the service returns exactly `[(9,1),(6,2),(5,3),(7,4)]` with strategy
`mixed_online_offline`. -/
theorem scenarioC_result :
    get_recommendations storeC cacheC 7 10 =
      ([⟨9, 1⟩, ⟨6, 2⟩, ⟨5, 3⟩, ⟨7, 4⟩], "mixed_online_offline") :=
  scenarioC_eval

/-- Counterexample for C4: with two related tracks of equal summed score the
aggregator returns them in descending `track_id` order (the pandas descending
sort reverses the ascending run), not the ascending tie order the claim
states. -/
theorem expand_tie_counterexample :
    get_similar_tracks_for_history [⟨1, 10, 2⟩, ⟨1, 20, 2⟩] [1] 10 [] =
        [(20, 2), (10, 2)] ∧
    get_similar_tracks_for_history [⟨1, 10, 2⟩, ⟨1, 20, 2⟩] [1] 10 [] ≠
        [(10, 2), (20, 2)] := by
  have h : get_similar_tracks_for_history [⟨1, 10, 2⟩, ⟨1, 20, 2⟩] [1] 10 [] =
      [(20, 2), (10, 2)] := by
    rw [get_similar_eq_branch 10 [] (by decide) (by decide)]
    norm_num [matchedRows, keptRows, similar_agg, groupKeys, sumScore,
      sortScoreDesc, sortBy, insertBy, List.dedup]
  refine ⟨h, ?_⟩
  rw [h]
  intro hcontra
  have h1 : ((20, 2) : Nat × Rat) = (10, 2) := by
    injection hcontra
  exact absurd (congrArg Prod.fst h1) (by decide)

/-- Claim C4 (amended): `expand` returns a list of length at most `limit`, with
pairwise-distinct track ids, sorted descending by summed score (tie order is
not the ascending-id order the claim states — the embedding realises the
descending-id order produced by the reversal); every returned entry lies
outside the seed and exclude sets, is reachable from some seed in the
similarity table, and carries the sum of its scores over the kept rows; when
the aggregated candidates fit in `limit`, each of them appears; and an empty
seed set yields an empty result. -/
theorem expand_spec_properties (sim : List SimilarRow) (ts : List Nat) (n : Nat)
    (ex : List Nat) :
    (ts = [] → get_similar_tracks_for_history sim ts n ex = []) ∧
    (get_similar_tracks_for_history sim ts n ex).length ≤ n ∧
    ((get_similar_tracks_for_history sim ts n ex).map Prod.fst).Nodup ∧
    (get_similar_tracks_for_history sim ts n ex).Pairwise (fun a b => b.2 ≤ a.2) ∧
    (∀ p ∈ get_similar_tracks_for_history sim ts n ex,
      p.1 ∉ ts ∧ p.1 ∉ ex ∧
      (∃ row ∈ sim, row.track_id ∈ ts ∧ row.similar_track_id = p.1) ∧
      p.2 = sumScore (keptRows sim ts ex) p.1) ∧
    ((groupKeys (keptRows sim ts ex)).length ≤ n →
      ∀ k ∈ groupKeys (keptRows sim ts ex),
        k ∈ (get_similar_tracks_for_history sim ts n ex).map Prod.fst) := by
  refine ⟨?_, length_get_similar_le sim ts n ex, nodup_map_fst_get_similar sim ts n ex,
    pairwise_get_similar sim ts n ex, ?_, get_similar_complete⟩
  · intro h
    unfold get_similar_tracks_for_history
    rw [if_pos h]
  · intro p hp
    obtain ⟨hk, hsum⟩ := mem_get_similar hp
    obtain ⟨h1, h2, h3⟩ := get_similar_key_props hk
    exact ⟨h1, h2, h3, hsum⟩

/-- Witness for C4 at concrete inputs discharging the empty-seed hypothesis
(first conjunct) and the no-truncation hypothesis of the completeness
conjunct. -/
theorem expand_spec_properties_witness :
    get_similar_tracks_for_history [⟨1, 10, 2⟩] [] 3 [] = [] ∧
    10 ∈ (get_similar_tracks_for_history [⟨1, 10, 2⟩] [1] 3 []).map Prod.fst :=
  ⟨(expand_spec_properties [⟨1, 10, 2⟩] [] 3 []).1 rfl,
   (expand_spec_properties [⟨1, 10, 2⟩] [1] 3 []).2.2.2.2.2 (by decide) 10 (by decide)⟩

/-- Claim C5: under each of the three strategies the returned list has no
duplicate track ids, provided the user's offline rows and the popularity table
both carry distinct track ids. -/
theorem recommendations_nodup (svc : ServiceData) (cache : Cache) (u n : Nat)
    (hoff : ((svc.offline_recs.filter (fun r => decide (r.user_id = u))).map
      OfflineRow.track_id).Nodup)
    (hpop : (svc.top_popular.map PopularRow.track_id).Nodup) :
    ((get_recommendations svc cache u n).1.map Recommendation.track_id).Nodup := by
  by_cases ho : svc.offline_recs.filter (fun r => decide (r.user_id = u)) = []
  · rw [get_recommendations_popular (get_offline_eq_nil 100 ho)]
    rw [map_track_id_popular]
    exact nodup_get_popular_map n _ hpop
  · by_cases hh : (cache u).getD [] = []
    · rw [get_recommendations_offline hh (get_offline_ne_nil ho)]
      rw [map_track_id_offline, List.map_take]
      exact (nodup_get_offline_map 100 hoff).sublist (List.take_sublist _ _)
    · rw [get_recommendations_mixed hh (get_offline_ne_nil ho)]
      exact nodup_mix_recommendations _ _ n

/-- Witness for C5: a concrete store with one offline row and one popularity
row satisfies both distinctness hypotheses. -/
theorem recommendations_nodup_witness :
    ((get_recommendations ⟨[⟨1, 10, 1⟩], [], [⟨2, 1⟩], []⟩ emptyCache 1 5).1.map
      Recommendation.track_id).Nodup :=
  recommendations_nodup ⟨[⟨1, 10, 1⟩], [], [⟨2, 1⟩], []⟩ emptyCache 1 5
    (by decide) (by decide)

/-- Counterexample for C6: a user whose single stored offline row has rank 2 is
served `offline_only` with the stored rank 2, so the returned ranks are `[2]`,
not the renumbered sequence `1..k` the claim states. -/
theorem offline_rank_counterexample :
    (get_recommendations ⟨[⟨1, 10, 2⟩], [], [], []⟩ emptyCache 1 5).2 =
        "offline_only" ∧
    (get_recommendations ⟨[⟨1, 10, 2⟩], [], [], []⟩ emptyCache 1 5).1.map
        Recommendation.rank ≠
      List.range' 1
        (get_recommendations ⟨[⟨1, 10, 2⟩], [], [], []⟩ emptyCache 1 5).1.length := by
  constructor
  · decide
  · decide

/-- Claim C6 (amended): for a user with offline rows and no history the strategy
is `offline_only`, the tracks are the stored candidates in ascending stored-rank
order truncated to `n`, and — when the stored ranks are exactly `1..m` (as the
claim presumes; the code returns the stored ranks unrenumbered) — the returned
ranks are `1..min n m`.  The bound `n ≤ 100` reflects the API validation range. -/
theorem offline_only_ranks (svc : ServiceData) (cache : Cache) (u n : Nat)
    (hn : n ≤ 100)
    (hh : (cache u).getD [] = [])
    (hu : svc.offline_recs.filter (fun r => decide (r.user_id = u)) ≠ [])
    (hranks : (sortBy (fun a b => decide (a.rank ≤ b.rank))
        (svc.offline_recs.filter (fun r => decide (r.user_id = u)))).map
        OfflineRow.rank =
      List.range' 1 (svc.offline_recs.filter (fun r => decide (r.user_id = u))).length) :
    (get_recommendations svc cache u n).2 = "offline_only" ∧
    (get_recommendations svc cache u n).1.map Recommendation.rank =
      List.range' 1
        (min n (svc.offline_recs.filter (fun r => decide (r.user_id = u))).length) ∧
    (get_recommendations svc cache u n).1.map Recommendation.track_id =
      ((sortBy (fun a b => decide (a.rank ≤ b.rank))
        (svc.offline_recs.filter (fun r => decide (r.user_id = u)))).map
        OfflineRow.track_id).take n := by
  rw [get_recommendations_offline hh (get_offline_ne_nil hu)]
  refine ⟨rfl, ?_, ?_⟩
  · rw [get_offline_eq_of_ne 100 hu, List.take_take, min_eq_left hn, map_rank_offline,
      List.map_take, hranks, take_range']
  · rw [get_offline_eq_of_ne 100 hu, List.take_take, min_eq_left hn,
      map_track_id_offline, List.map_take]

/-- Witness for C6 at a concrete input: user 1 has stored ranks `[1, 2]`, no
history, and requests `n = 1`. -/
theorem offline_only_ranks_witness :
    (get_recommendations ⟨[⟨1, 10, 1⟩, ⟨1, 11, 2⟩], [], [], []⟩ emptyCache 1 1).2 =
        "offline_only" ∧
    (get_recommendations ⟨[⟨1, 10, 1⟩, ⟨1, 11, 2⟩], [], [], []⟩ emptyCache 1 1).1.map
        Recommendation.rank =
      List.range' 1 (min 1 2) := by
  have h := offline_only_ranks ⟨[⟨1, 10, 1⟩, ⟨1, 11, 2⟩], [], [], []⟩ emptyCache 1 1
    (by decide) rfl (by decide) (by decide)
  exact ⟨h.1, h.2.1⟩

/-- Claim C7: for a user with no offline entry the strategy is
`popular_fallback` and the list is the popularity table filtered by the user's
history, truncated to `n`, ranks preserved from the table; with no history the
list is non-empty whenever the table is non-empty and `n ≥ 1`. -/
theorem popular_fallback_spec (svc : ServiceData) (cache : Cache) (u n : Nat)
    (hno : svc.offline_recs.filter (fun r => decide (r.user_id = u)) = []) :
    (get_recommendations svc cache u n).2 = "popular_fallback" ∧
    (get_recommendations svc cache u n).1 =
      ((svc.top_popular.filter
        (fun r => decide (r.track_id ∉ (cache u).getD []))).take n).map
        (fun r => ⟨r.track_id, r.rank⟩) ∧
    ((cache u).getD [] = [] → svc.top_popular ≠ [] → 1 ≤ n →
      (get_recommendations svc cache u n).1 ≠ []) := by
  rw [get_recommendations_popular (get_offline_eq_nil 100 hno)]
  refine ⟨rfl, ?_, ?_⟩
  · rw [get_popular_eq_filter]
  · intro h1 h2 h3
    rw [get_popular_eq_filter, h1]
    have hf : svc.top_popular.filter (fun r => decide (r.track_id ∉ ([] : List Nat))) =
        svc.top_popular := List.filter_eq_self.mpr (fun a _ => by simp)
    rw [hf]
    apply List.length_pos.mp
    rw [List.length_map, List.length_take]
    have := List.length_pos.mpr h2
    omega

/-- Witness for C7 at a concrete input: a user unknown to the offline table,
empty history, one popularity row, `n = 2`. -/
theorem popular_fallback_spec_witness :
    (get_recommendations ⟨[], [], [⟨3, 1⟩], []⟩ emptyCache 9 2).2 =
        "popular_fallback" ∧
    (get_recommendations ⟨[], [], [⟨3, 1⟩], []⟩ emptyCache 9 2).1 ≠ [] :=
  ⟨(popular_fallback_spec ⟨[], [], [⟨3, 1⟩], []⟩ emptyCache 9 2 (by decide)).1,
   (popular_fallback_spec ⟨[], [], [⟨3, 1⟩], []⟩ emptyCache 9 2 (by decide)).2.2
     rfl (by decide) (by decide)⟩

/-- Counterexample for C8: when the third dataset fails to load, the first two
datasets — which were read successfully — do not retain their contents: the
`except` branch resets all four tables, so the offline table is empty, not the
loaded `[⟨1, 10, 1⟩]` the claim requires. -/
theorem load_data_counterexample :
    load_data (some [⟨1, 10, 1⟩]) (some [⟨5, 9, 5⟩]) none (some [3]) = emptyData ∧
    (load_data (some [⟨1, 10, 1⟩]) (some [⟨5, 9, 5⟩]) none (some [3])).offline_recs ≠
      [⟨1, 10, 1⟩] := by
  refine ⟨rfl, ?_⟩
  intro h
  exact absurd (congrArg List.length h) (by decide)

/-- Claim C8 (amended): a failure of any of the four startup loads does not
abort startup, but it degrades ALL FOUR datasets to empty tables (the single
`except` branch reassigns every global), not only the affected one; only when
all four loads succeed are the loaded contents kept. -/
theorem load_data_spec (r1 : Option (List OfflineRow)) (r2 : Option (List SimilarRow))
    (r3 : Option (List PopularRow)) (r4 : Option (List Nat)) :
    ((r1 = none ∨ r2 = none ∨ r3 = none ∨ r4 = none) →
      load_data r1 r2 r3 r4 = emptyData) ∧
    (∀ a b c d, r1 = some a → r2 = some b → r3 = some c → r4 = some d →
      load_data r1 r2 r3 r4 = ⟨a, b, c, d⟩) := by
  constructor
  · intro h
    rcases r1 with _ | a
    · rfl
    rcases r2 with _ | b
    · rfl
    rcases r3 with _ | c
    · rfl
    rcases r4 with _ | d
    · rfl
    rcases h with h | h | h | h <;> exact absurd h (by simp)
  · intro a b c d h1 h2 h3 h4
    subst h1
    subst h2
    subst h3
    subst h4
    rfl

/-- Witness for C8 at concrete inputs: one failing load (first dataset) gives
the all-empty state; four successful loads keep the loaded contents. -/
theorem load_data_spec_witness :
    load_data none (some []) (some []) (some ([] : List Nat)) = emptyData ∧
    load_data (some [⟨1, 10, 1⟩]) (some []) (some []) (some []) =
      ⟨[⟨1, 10, 1⟩], [], [], []⟩ :=
  ⟨(load_data_spec none (some []) (some []) (some [])).1 (Or.inl rfl),
   (load_data_spec (some [⟨1, 10, 1⟩]) (some []) (some []) (some [])).2
     [⟨1, 10, 1⟩] [] [] [] rfl rfl rfl rfl⟩

/-- Claim C9: after `UpdateHistory(u, [a, b])` the first `ClearHistory(u)`
reports the entry found, and an immediately subsequent `ClearHistory(u)`
reports it not found. -/
theorem history_roundtrip (cache : Cache) (u a b : Nat) :
    (clear_online_history (update_online_history cache u [a, b]) u).1 = true ∧
    (clear_online_history
      (clear_online_history (update_online_history cache u [a, b]) u).2 u).1 = false := by
  have h1 : update_online_history cache u [a, b] u = some [a, b] := by
    show (if u = u then some [a, b] else cache u) = some [a, b]
    rw [if_pos rfl]
  obtain ⟨hf, hn⟩ := clear_found h1
  exact ⟨hf, clear_not_found hn⟩

/-- Claim C10: after `UpdateHistory(u, [])` the user is treated as having no
session history — the strategy is never `mixed_online_offline`, and with no
offline entry nothing is excluded from the popularity fallback — yet
`ClearHistory(u)` still reports the (empty-list) entry as found. -/
theorem empty_history_update (svc : ServiceData) (cache : Cache) (u n : Nat) :
    (get_recommendations svc (update_online_history cache u []) u n).2 ≠
        "mixed_online_offline" ∧
    (clear_online_history (update_online_history cache u []) u).1 = true ∧
    (svc.offline_recs.filter (fun r => decide (r.user_id = u)) = [] →
      (get_recommendations svc (update_online_history cache u []) u n).2 =
          "popular_fallback" ∧
      (get_recommendations svc (update_online_history cache u []) u n).1 =
        (svc.top_popular.take n).map (fun r => ⟨r.track_id, r.rank⟩)) := by
  have hu : update_online_history cache u [] u = some [] := by
    show (if u = u then some [] else cache u) = some []
    rw [if_pos rfl]
  have hh : ((update_online_history cache u [] : Cache) u).getD ([] : List Nat) = [] := by
    rw [hu]
    rfl
  refine ⟨?_, (clear_found hu).1, ?_⟩
  · by_cases ho : get_offline_recommendations svc.offline_recs u 100 = []
    · rw [get_recommendations_popular ho]
      show "popular_fallback" ≠ "mixed_online_offline"
      decide
    · rw [get_recommendations_offline hh ho]
      show "offline_only" ≠ "mixed_online_offline"
      decide
  · intro hno
    rw [get_recommendations_popular (get_offline_eq_nil 100 hno)]
    refine ⟨rfl, ?_⟩
    rw [hh, get_popular_eq_filter]
    have hf : svc.top_popular.filter (fun r => decide (r.track_id ∉ ([] : List Nat))) =
        svc.top_popular := List.filter_eq_self.mpr (fun a _ => by simp)
    rw [hf]

/-- Witness for C10 at a concrete input: user 4 updates an empty history; with
no offline rows the fallback serves the whole popularity table. -/
theorem empty_history_update_witness :
    (get_recommendations ⟨[], [], [⟨3, 1⟩], []⟩ (update_online_history emptyCache 4 [])
        4 2).2 = "popular_fallback" :=
  ((empty_history_update ⟨[], [], [⟨3, 1⟩], []⟩ emptyCache 4 2).2.2 (by decide)).1

end RecSys
